import Mathlib

/-!
Shallow embedding of the data-alignment and correlation-metrics pipeline of
`West-East-Power-Transmission.py` (a Streamlit app correlating river
water-level series with HVDC power-transmission series).

Modelling conventions:
* Timestamps are minutes since an epoch (`TS := Nat`); truncating a timestamp
  to its calendar day (`pandas .dt.date`) is integer division by 1440.
* A pandas cell holds `Option ℚ`: `none` models a NULL/NaN (or otherwise
  invalid) cell, `some q` a real numeric value.  Float rounding is ignored:
  values are exact rationals.
* `pandas.groupby(key).agg` sorts the group keys ascending (its default) and
  reduces each group; `sum` skips NaN cells (an all-NaN group sums to 0),
  `mean` skips NaN cells and is NaN on an all-NaN group.
* `pandas.merge(..., how='inner', on='date')` preserves the order of the left
  frame's keys (documented pandas behaviour) and pairs each left row with the
  matching right rows in right order; `DataFrame.dropna()` then removes rows
  with any NaN cell.
* `scipy.stats.pearsonr` / `spearmanr` on two equal-length real sequences do
  not raise: when either sequence has zero variance they return NaN (with a
  warning, which the program silences via `warnings.filterwarnings`).  A NaN
  statistic is modelled as `none`.  Since `r = Sxy / √(Sxx·Syy)` is irrational
  in general, a defined statistic is carried exactly by its signed square
  `sign(r)·r² = Sxy·|Sxy| / (Sxx·Syy)`, an encoding that preserves order on
  `|r|` (so the by-`abs(r)` sorting below is faithful).
* a two-sided p-value is a fixed, strictly monotone, transcendental function
  of the absolute statistic and the sample count; it is carried exactly by
  that determining data (`PVal`).
* `sklearn.linear_model.LinearRegression` on one feature is ordinary least
  squares: slope `Sxy/Sxx` (0 for a constant feature, the minimum-norm
  solution of the centred problem), intercept `ȳ − slope·x̄`; `score` is
  `1 − SSres/SStot`, with sklearn's conventions `1` when `SStot = 0 = SSres`
  and `0` when `SStot = 0 ≠ SSres`.
-/

namespace WEPT

/-- Timestamps: minutes since an epoch. -/
abbrev TS := Nat

/-- Truncate a timestamp to its calendar day (`.dt.date`). -/
def tsDate (t : TS) : Nat := t / 1440

/-- One raw `water_rain_river` row (already filtered to the 云南 region, as
`load_river_data` does); `water_level` is `none` for a NULL/NaN cell. -/
structure WaterRaw where
  time : TS
  river_name : String
  water_level : Option ℚ
deriving DecidableEq

/-- One processed water row as produced by `process_water_data`:
a validated numeric level plus the day-truncated `date` column. -/
structure WaterRow where
  time : TS
  river_name : String
  water_level : ℚ
  date : Nat
deriving DecidableEq

/-- One raw power spreadsheet row after `load_power_data` combines the
日期 and 时点 columns into a timestamp; `power_actual` is `none` for NaN. -/
structure PowerRaw where
  dt : TS
  power_actual : Option ℚ
deriving DecidableEq

/-- One row of a daily series: a calendar day and one value cell. -/
structure DRow where
  date : Nat
  value : Option ℚ
deriving DecidableEq

/-- One merged row before `dropna`: `value_a` from the left frame,
`value_b` from the right frame. -/
structure MRow where
  date : Nat
  value_a : Option ℚ
  value_b : Option ℚ
deriving DecidableEq

/-- One aligned row after `dropna`: both values present. -/
structure ARow where
  date : Nat
  value_a : ℚ
  value_b : ℚ
deriving DecidableEq

/-- pandas `sum` aggregation: NaN cells are skipped, an all-NaN (or empty)
group sums to `0` (pandas `min_count` defaults to 0). -/
def pdSum (vs : List (Option ℚ)) : Option ℚ :=
  some (vs.filterMap id).sum

/-- pandas `mean` aggregation: NaN cells are skipped; the mean of an all-NaN
(or empty) group is NaN. -/
def pdMean (vs : List (Option ℚ)) : Option ℚ :=
  let v := vs.filterMap id
  if v.length = 0 then none else some (v.sum / v.length)

/-- The keys of `groupby('date')`: the distinct dates, sorted ascending
(pandas groupby default `sort=True`). -/
def groupKeys (rows : List DRow) : List Nat :=
  ((rows.map (·.date)).dedup).insertionSort (· ≤ ·)

/-- The value cells of the rows of a given date. -/
def valuesAt (rows : List DRow) (d : Nat) : List (Option ℚ) :=
  (rows.filter (·.date = d)).map (·.value)

/-- `groupby('date').agg(f).reset_index()`: one row per distinct date,
sorted ascending, carrying the reduction of that date's cells. -/
def groupAgg (f : List (Option ℚ) → Option ℚ) (rows : List DRow) : List DRow :=
  (groupKeys rows).map fun d => ⟨d, f (valuesAt rows d)⟩

/-- Sort key of `process_water_data`'s `sort_values(by=['river_name', 'time'])`. -/
def riverTimeLE (a b : WaterRow) : Prop :=
  a.river_name < b.river_name ∨ (a.river_name = b.river_name ∧ a.time ≤ b.time)

instance : DecidableRel riverTimeLE := fun a b => by
  unfold riverTimeLE; infer_instance

/-- Validate one raw water row: `none` when its level cell is NULL/NaN,
otherwise the processed row with the numeric level and the day-truncated
`date` column. -/
def toWaterRow (r : WaterRaw) : Option WaterRow :=
  r.water_level.map fun v => WaterRow.mk r.time r.river_name v (tsDate r.time)

/-- Embedding of `process_water_data` (source lines 175-187): keep the rows
inside the inclusive time window, drop rows with a NULL/NaN `water_level`
(`dropna`), read the level as a number (`astype(float)`), add the
day-truncated `date` column, and sort by `(river_name, time)`. -/
def process_water_data (rows : List WaterRaw) (start_date end_date : TS) :
    List WaterRow :=
  let ranged := rows.filter fun r => start_date ≤ r.time ∧ r.time ≤ end_date
  (ranged.filterMap toWaterRow).insertionSort riverTimeLE

/-- View a raw power row as a (day-truncated date, value) frame row. -/
def toPowerDRow (r : PowerRaw) : DRow := ⟨tsDate r.dt, r.power_actual⟩

/-- Embedding of the daily aggregation of `load_power_data` (source lines
153-158): truncate each timestamp to its day, `groupby('date').sum()` the
power column, and keep only rows whose `power_sum` is not NaN. -/
def load_power_data (rows : List PowerRaw) : List DRow :=
  (groupAgg pdSum (rows.map toPowerDRow)).filter (·.value.isSome)

/-- The inclusive date-range filter applied to a daily power frame
(`df_power[(date >= start) & (date <= end)]`). -/
def filterRange (s e : Nat) (rows : List DRow) : List DRow :=
  rows.filter fun r => s ≤ r.date ∧ r.date ≤ e

/-- `pd.merge(a, b, on='date', how='inner')`: each left row in left order,
paired with every right row of the same date in right order. -/
def innerMerge (a b : List DRow) : List MRow :=
  a.flatMap fun ra =>
    (b.filter (·.date = ra.date)).map fun rb => ⟨ra.date, ra.value, rb.value⟩

/-- `DataFrame.dropna()` on a merged frame: keep only rows with both values
present (the date column is never NaN). -/
def dropna (m : List MRow) : List ARow :=
  m.filterMap fun r =>
    match r.value_a, r.value_b with
    | some x, some y => some ⟨r.date, x, y⟩
    | _, _ => none

/-- The Date-Aligned Merger of the source: inner merge on date, then drop
rows with a missing value (the `pd.merge` + `dropna` idiom used at source
lines 522-528, 608-614, 658-664, 710-716, 811-812). -/
def mergeDaily (a b : List DRow) : List ARow :=
  dropna (innerMerge a b)

/-- Arithmetic mean of a list of rationals (0 on the empty list, which is
never taken under the sample floor). -/
def mean (xs : List ℚ) : ℚ := xs.sum / xs.length

/-- Centred sum of squares `Σ (x − x̄)²`. -/
def sxx (xs : List ℚ) : ℚ := (xs.map fun x => (x - mean xs) ^ 2).sum

/-- Centred sum of products `Σ (x − x̄)(y − ȳ)`. -/
def sxy (xs ys : List ℚ) : ℚ :=
  ((xs.zip ys).map fun p => (p.1 - mean xs) * (p.2 - mean ys)).sum

/-- Embedding of `scipy.stats.pearsonr`'s statistic: NaN (`none`) when either
input has zero variance (scipy warns and returns NaN there; it does not
raise); otherwise the statistic `r = Sxy/√(Sxx·Syy)` carried exactly by its
signed square `Sxy·|Sxy|/(Sxx·Syy)`. -/
def pearsonr (xs ys : List ℚ) : Option ℚ :=
  if sxx xs = 0 ∨ sxx ys = 0 then none
  else some (sxy xs ys * |sxy xs ys| / (sxx xs * sxx ys))

/-- Average (midrank) of a value within a sample, as `scipy.stats.rankdata`
assigns it: ties receive the mean of the positions they occupy. -/
def rankAvg (xs : List ℚ) (x : ℚ) : ℚ :=
  (xs.countP (· < x) : ℚ) + ((xs.countP (· = x) : ℚ) + 1) / 2

/-- Midrank transform of a sample. -/
def ranks (xs : List ℚ) : List ℚ := xs.map (rankAvg xs)

/-- Embedding of `scipy.stats.spearmanr`'s statistic: the Pearson statistic
of the midrank transforms. -/
def spearmanr (xs ys : List ℚ) : Option ℚ :=
  pearsonr (ranks xs) (ranks ys)

/-- OLS slope of `ys` against `xs` (`LinearRegression.coef_[0]`); `0` for a
constant feature (the minimum-norm least-squares solution). -/
def regSlope (xs ys : List ℚ) : ℚ :=
  if sxx xs = 0 then 0 else sxy xs ys / sxx xs

/-- OLS intercept (`LinearRegression.intercept_`). -/
def regIntercept (xs ys : List ℚ) : ℚ :=
  mean ys - regSlope xs ys * mean xs

/-- Residual sum of squares of the fitted line. -/
def ssRes (xs ys : List ℚ) : ℚ :=
  ((xs.zip ys).map fun p =>
    (p.2 - (regSlope xs ys * p.1 + regIntercept xs ys)) ^ 2).sum

/-- Embedding of `LinearRegression.score`: in-sample `R² = 1 − SSres/SStot`,
with sklearn's conventions for `SStot = 0`. -/
def r2Score (xs ys : List ℚ) : ℚ :=
  if sxx ys = 0 then (if ssRes xs ys = 0 then 1 else 0)
  else 1 - ssRes xs ys / sxx ys

/-- Exact determining data of a two-sided p-value: the squared absolute
statistic (`none` when the statistic is NaN) and the sample count.  The
p-value itself is a fixed strictly monotone transcendental function of this
data, so the data represents it exactly. -/
structure PVal where
  absStat2 : Option ℚ
  n : Nat
deriving DecidableEq

/-- The result record built by `calculate_correlation` (source lines
204-213). -/
structure CorrStats where
  pearson_r : Option ℚ
  pearson_p : PVal
  spearman_r : Option ℚ
  spearman_p : PVal
  r2 : ℚ
  slope : ℚ
  intercept : ℚ
  n : Nat
deriving DecidableEq

/-- Embedding of `calculate_correlation` (source lines 189-215).  The guard
`len(water_values) < 10` returns `None` before the `try` block.  Inside the
`try`, on equal-length real-valued arrays neither scipy nor sklearn raises
(degenerate inputs yield NaN statistics, modelled as `none` fields), so the
`except` branch fires only for a length mismatch, where `pearsonr` raises
`ValueError` and the handler returns `None`. -/
def calculate_correlation (water_values power_values : List ℚ) :
    Option CorrStats :=
  if water_values.length < 10 then none
  else if water_values.length ≠ power_values.length then none
  else some
    ⟨pearsonr water_values power_values,
     ⟨(pearsonr water_values power_values).map abs, water_values.length⟩,
     spearmanr water_values power_values,
     ⟨(spearmanr water_values power_values).map abs, water_values.length⟩,
     r2Score water_values power_values,
     regSlope water_values power_values,
     regIntercept water_values power_values,
     water_values.length⟩

/-- View of processed water rows as a (date, value) daily-frame input. -/
def waterDRows (w : List WaterRow) : List DRow :=
  w.map fun r => ⟨r.date, some r.water_level⟩

/-- Per-river daily water series of the single-river and ranking tabs
(source lines 516-519, 705-708): filter to one river, then
`groupby('date').agg({'water_level': 'mean'})`. -/
def riverDaily (w : List WaterRow) (river : String) : List DRow :=
  groupAgg pdMean (waterDRows (w.filter (·.river_name = river)))

/-- Combined multi-river series of the multi-river and multi-line tabs
(source lines 361-362, 600-605, 797-798): filter to the selected rivers,
then a single `groupby('date').agg({'water_level': 'sum'})` over all their
rows. -/
def combinedWaterSum (w : List WaterRow) (rivers : List String) : List DRow :=
  groupAgg pdSum (waterDRows (w.filter (·.river_name ∈ rivers)))

/-- The water column of an aligned frame (`df_merged['water_level']`, the
right side of the merges in this program). -/
def alignedWater (m : List ARow) : List ℚ := m.map (·.value_b)

/-- The power column of an aligned frame (`df_merged['power_sum']`, the left
side of the merges in this program). -/
def alignedPower (m : List ARow) : List ℚ := m.map (·.value_a)

/-- One row of the ranking table collected in Tab 4 (source lines 724-733). -/
structure RankRec where
  river : String
  n : Nat
  pearson_r : Option ℚ
  r2 : ℚ
  pearson_p : PVal
  slope : ℚ
  date_min : Nat
  date_max : Nat
deriving DecidableEq

/-- One iteration of the Tab 4 collection loop (source lines 705-733): build
the river's daily series, merge with the (already range-filtered) power
series, and if at least 10 aligned rows remain and the engine produced a
result, the record; otherwise nothing. -/
def rankerStep (w : List WaterRow) (power : List DRow) (river : String) :
    Option RankRec :=
  if 10 ≤ (mergeDaily power (riverDaily w river)).length then
    match calculate_correlation (alignedWater (mergeDaily power (riverDaily w river)))
        (alignedPower (mergeDaily power (riverDaily w river))) with
    | some s => some ⟨river, s.n, s.pearson_r, s.r2, s.pearson_p, s.slope,
        (((mergeDaily power (riverDaily w river)).map (·.date)).min?).getD 0,
        (((mergeDaily power (riverDaily w river)).map (·.date)).max?).getD 0⟩
    | none => none
  else none

/-- Embedding of the Tab 4 collection loop over all candidate rivers
(source lines 701-733): rivers that fail the floor or produce no result are
skipped, the rest are collected in order. -/
def rankerCollect (w : List WaterRow) (power : List DRow)
    (rivers : List String) : List RankRec :=
  rivers.filterMap (rankerStep w power)

/-- Sort key of `sort_values('Pearson_r', key=abs, ascending=False)`: `a`
may precede `b` iff `|r_a| ≥ |r_b|`, with NaN (`none`) last (pandas default
`na_position='last'`).  On the signed-square encoding, `|·|` is `r²`, and
comparing `r²` is the same as comparing `|r|`. -/
def pearsonKeyGE (a b : Option ℚ) : Bool :=
  match a, b with
  | _, none => true
  | none, some _ => false
  | some p, some q => decide (|q| ≤ |p|)

/-- The row order of the ranking table sort. -/
def rankOrder (x y : RankRec) : Prop :=
  pearsonKeyGE x.pearson_r y.pearson_r = true

instance : DecidableRel rankOrder := fun x y => by
  unfold rankOrder; infer_instance

instance : IsTotal RankRec rankOrder := by
  constructor
  intro a b
  unfold rankOrder pearsonKeyGE
  rcases a.pearson_r with _ | p <;> rcases b.pearson_r with _ | q <;> simp
  exact le_total |q| |p|

instance : IsTrans RankRec rankOrder := by
  constructor
  intro a b c
  unfold rankOrder pearsonKeyGE
  rcases a.pearson_r with _ | p <;> rcases b.pearson_r with _ | q <;>
    rcases c.pearson_r with _ | s <;> simp
  exact fun h₁ h₂ => le_trans h₂ h₁

/-- `df_results.insert(0, '排名', range(1, len(df_results) + 1))`: prepend
ranks 1..k to the sorted rows. -/
def withRanks (l : List RankRec) : List (Nat × RankRec) :=
  (List.range' 1 l.length).zip l

/-- Embedding of the ranking table of Tab 4 (source lines 738-741): sort the
collected records by descending absolute Pearson coefficient and assign
ranks 1..k. -/
def rankerTable (w : List WaterRow) (power : List DRow)
    (rivers : List String) : List (Nat × RankRec) :=
  withRanks ((rankerCollect w power rivers).insertionSort rankOrder)

/-- One row of the multi-line comparison table of Tab 5 (source lines
820-826). -/
structure CompRec where
  dc : String
  pearson_r : Option ℚ
  r2 : ℚ
  pearson_p : PVal
  n : Nat
deriving DecidableEq

/-- One iteration of the Tab 5 comparison loop (source lines 803-826):
range-filter the line's daily power series, merge with the fixed combined
water series, and if at least 10 aligned rows remain and the engine
produced a result, the record; otherwise nothing. -/
def comparatorStep (wsum : List DRow) (s e : Nat)
    (pr : String × List DRow) : Option CompRec :=
  if 10 ≤ (mergeDaily (filterRange s e pr.2) wsum).length then
    match calculate_correlation
        (alignedWater (mergeDaily (filterRange s e pr.2) wsum))
        (alignedPower (mergeDaily (filterRange s e pr.2) wsum)) with
    | some st => some ⟨pr.1, st.pearson_r, st.r2, st.pearson_p, st.n⟩
    | none => none
  else none

/-- Embedding of the Tab 5 comparison loop over all selected transmission
lines: lines that fail the floor or produce no result are skipped, the rest
are collected in order. -/
def comparatorCollect (powers : List (String × List DRow)) (wsum : List DRow)
    (s e : Nat) : List CompRec :=
  powers.filterMap (comparatorStep wsum s e)

/-- Per-river daily sum series: the per-group reduction under which the
single-pass combined sum decomposes (used by the amended form of the
multi-river claim). -/
def riverDailySum (w : List WaterRow) (river : String) : List DRow :=
  groupAgg pdSum (waterDRows (w.filter (·.river_name = river)))

/-- Second-pass summation of several daily series into one combined daily
series: on each date, the sum of the values the series have there. -/
def seriesSum (ls : List (List DRow)) : List DRow :=
  groupAgg pdSum ls.flatten

/-- Modelled from the spec: the spec's description of the multi-river view
(sections 4.1 and the C2 sentence) builds the combined series by first
aggregating each river's readings independently to one value per day — the
water reduction, which the spec fixes as the daily `mean` — and then summing
the per-river daily values across the selected rivers.  This definition
follows those words, to be compared with the source's `combinedWaterSum`. -/
def specMeanThenSum (w : List WaterRow) (rivers : List String) : List DRow :=
  seriesSum (rivers.map fun rv => riverDaily w rv)

/-- Whether a candidate river clears the 10-aligned-rows sample floor
against a given power series (the `len(df_merged) >= 10` test of the
collection loops). -/
def clearsFloor (w : List WaterRow) (power : List DRow) (river : String) :
    Bool :=
  10 ≤ (mergeDaily power (riverDaily w river)).length

/-! ### Concrete example inputs used by witnesses -/

/-- Example aligned water column of 10 rows used to witness that the Engine
can produce a result at the sample floor. -/
def exWater : List ℚ := [1, 2, 3, 4, 5, 6, 7, 8, 9, 10]

/-- Example power column matching `exWater` (an exact linear response). -/
def exPower : List ℚ := [3, 5, 7, 9, 11, 13, 15, 17, 19, 21]

/-- Constant water column of 10 rows (degenerate correlation input). -/
def constWater : List ℚ := List.replicate 10 5

/-- Example river names. -/
def riverA : String := "R1"

/-- Second example river name. -/
def riverB : String := "R2"

/-- Example transmission-line name. -/
def lineA : String := "L1"

/-- Example water rows: `riverA` has two same-day readings on day 0 and one
on day 1; `riverB` has one reading on day 0. -/
def exWaterRows : List WaterRow :=
  [⟨0, riverA, 1, 0⟩, ⟨1, riverA, 3, 0⟩, ⟨1441, riverA, 7, 1⟩,
   ⟨2, riverB, 5, 0⟩]

/-- Example raw water rows (one NULL level cell among them). -/
def exWaterRaws : List WaterRaw :=
  [⟨0, riverA, some 1⟩, ⟨1, riverA, none⟩, ⟨2000, riverB, some 2⟩]

/-- Example raw power rows (two readings on day 0, a NaN on day 1). -/
def exPowerRaws : List PowerRaw :=
  [⟨0, some 1⟩, ⟨10, some 2⟩, ⟨1500, none⟩]

/-- Example processed water rows with a degenerate (constant) level: ten
daily readings of `riverA`, all at level 5. -/
def exConstWaterRows : List WaterRow :=
  (List.range 10).map fun d => ⟨1440 * d, riverA, 5, d⟩

/-- Example daily power series over the same ten days, with varying
values. -/
def exPowerDaily : List DRow :=
  (List.range 10).map fun d => ⟨d, some ((d : ℚ) + 1)⟩

/-! ### General lemmas about the grouped aggregation -/

lemma groupKeys_sorted (rows : List DRow) : (groupKeys rows).Sorted (· ≤ ·) :=
  List.sorted_insertionSort _ _

lemma groupKeys_nodup (rows : List DRow) : (groupKeys rows).Nodup :=
  ((List.perm_insertionSort _ _).nodup_iff).mpr (List.nodup_dedup _)

lemma mem_groupKeys {rows : List DRow} {d : Nat} :
    d ∈ groupKeys rows ↔ d ∈ rows.map (·.date) := by
  unfold groupKeys
  rw [(List.perm_insertionSort _ _).mem_iff, List.mem_dedup]

lemma groupAgg_map_date (f : List (Option ℚ) → Option ℚ) (rows : List DRow) :
    (groupAgg f rows).map (·.date) = groupKeys rows := by
  unfold groupAgg
  rw [List.map_map]
  exact List.map_id _

lemma mem_groupAgg {f : List (Option ℚ) → Option ℚ} {rows : List DRow}
    {r : DRow} (h : r ∈ groupAgg f rows) :
    r.value = f (valuesAt rows r.date) ∧ r.date ∈ rows.map (·.date) := by
  unfold groupAgg at h
  rcases List.mem_map.mp h with ⟨d, hd, rfl⟩
  exact ⟨rfl, mem_groupKeys.mp hd⟩

/-! ### The Correlation Engine -/

/-- C1: with fewer than 10 rows the Engine returns no result, and at 10 or
more rows it can produce one (witnessed at a concrete 10-row input). -/
theorem engine_sample_floor :
    (∀ water_values power_values : List ℚ, water_values.length < 10 →
      calculate_correlation water_values power_values = none) ∧
    (calculate_correlation exWater exPower).isSome = true := by
  constructor
  · intro xs ys h
    unfold calculate_correlation
    rw [if_pos h]
  · rfl

/-- Closed instance of the sample-floor guard at a concrete 9-row input. -/
theorem engine_sample_floor_witness :
    calculate_correlation [1, 2, 3, 4, 5, 6, 7, 8, 9] [9, 8, 7, 6, 5, 4, 3, 2, 1] = none :=
  engine_sample_floor.1 _ _ (by decide)

/-- C10: on equal-length inputs the Engine is a total function into
`Option CorrStats`: it returns a result exactly when the sample floor is
met, and any returned record carries `n` equal to the input length (the
`except` branch can only return `None`, so no exception escapes). -/
theorem engine_total :
    ∀ water_values power_values : List ℚ,
      water_values.length = power_values.length →
      ((calculate_correlation water_values power_values).isSome ↔
        10 ≤ water_values.length) ∧
      (∀ s, calculate_correlation water_values power_values = some s →
        s.n = water_values.length) := by
  intro xs ys hlen
  unfold calculate_correlation
  by_cases h : xs.length < 10
  · rw [if_pos h]
    constructor
    · simp only [Option.isSome_none, Bool.false_eq_true, false_iff]
      omega
    · intro s hs
      exact absurd hs (by simp)
  · rw [if_neg h, if_neg (by omega)]
    constructor
    · simp only [Option.isSome_some, true_iff]
      omega
    · intro s hs
      cases hs
      rfl

/-- Closed instance of `engine_total` at the example 10-row input. -/
theorem engine_total_witness :
    ((calculate_correlation exWater exPower).isSome ↔ 10 ≤ exWater.length) ∧
    (∀ s, calculate_correlation exWater exPower = some s → s.n = exWater.length) :=
  engine_total exWater exPower (by decide)

/-- On equal-length inputs meeting the sample floor the Engine always
produces a record (shared helper). -/
lemma calc_isSome_of_floor (xs ys : List ℚ) (hlen : xs.length = ys.length)
    (h10 : 10 ≤ xs.length) :
    ∃ s, calculate_correlation xs ys = some s ∧ s.n = xs.length := by
  unfold calculate_correlation
  rw [if_neg (by omega), if_neg (by omega)]
  exact ⟨_, rfl, rfl⟩

/-! ### Degenerate (constant) input: scipy yields NaN, not an exception -/

lemma mean_replicate {n : Nat} (c : ℚ) (h : n ≠ 0) :
    mean (List.replicate n c) = c := by
  unfold mean
  rw [List.sum_replicate, List.length_replicate, nsmul_eq_mul]
  rw [mul_comm, mul_div_assoc, div_self (by exact_mod_cast h), mul_one]

lemma sxx_replicate (n : Nat) (c : ℚ) : sxx (List.replicate n c) = 0 := by
  rcases Nat.eq_zero_or_pos n with h | h
  · subst h; rfl
  · unfold sxx
    rw [mean_replicate c (by omega), List.map_replicate]
    simp

/-- Shared helper: a constant `value_a` column of at least 10 rows yields a
populated record whose Pearson and Spearman statistics are NaN (scipy
returns NaN on zero-variance input rather than raising). -/
lemma calc_replicate_record (n : Nat) (c : ℚ) (power_values : List ℚ)
    (hn : 10 ≤ n) (hlen : power_values.length = n) :
    ∃ s, calculate_correlation (List.replicate n c) power_values = some s ∧
      s.pearson_r = none ∧ s.spearman_r = none ∧ s.n = n := by
  have hpear : pearsonr (List.replicate n c) power_values = none := by
    unfold pearsonr
    rw [if_pos (Or.inl (sxx_replicate n c))]
  have hspear : spearmanr (List.replicate n c) power_values = none := by
    unfold spearmanr ranks
    rw [List.map_replicate]
    unfold pearsonr
    rw [if_pos (Or.inl (sxx_replicate n _))]
  have hsome : calculate_correlation (List.replicate n c) power_values =
      some ⟨pearsonr (List.replicate n c) power_values,
        ⟨(pearsonr (List.replicate n c) power_values).map abs, n⟩,
        spearmanr (List.replicate n c) power_values,
        ⟨(spearmanr (List.replicate n c) power_values).map abs, n⟩,
        r2Score (List.replicate n c) power_values,
        regSlope (List.replicate n c) power_values,
        regIntercept (List.replicate n c) power_values, n⟩ := by
    unfold calculate_correlation
    rw [if_neg (by rw [List.length_replicate]; omega),
      if_neg (by rw [List.length_replicate, hlen]; simp)]
    simp [List.length_replicate]
  exact ⟨_, hsome, hpear, hspear, rfl⟩

/-- Counterexample to C3 as stated: on a 10-row aligned pair whose water
column is constant, `calculate_correlation` does NOT return `None` — scipy
returns NaN statistics rather than raising, so the `except` branch never
fires and a result record is produced. -/
theorem engine_constant_not_none :
    calculate_correlation constWater exPower ≠ none := by
  decide

/-- Amended C3: the Engine never raises, and inputs that make the underlying
routines raise yield `None`; but a constant `value_a` column of at least 10
rows is not such an input — the Engine returns a result record whose Pearson
and Spearman statistics are NaN (`none`), with the sample count filled in. -/
theorem engine_constant_nan :
    ∀ (n : Nat) (c : ℚ) (power_values : List ℚ), 10 ≤ n →
      power_values.length = n →
      ∃ s, calculate_correlation (List.replicate n c) power_values = some s ∧
        s.pearson_r = none ∧ s.spearman_r = none ∧ s.n = n :=
  fun n c ys hn hlen => calc_replicate_record n c ys hn hlen

/-- Closed instance of `engine_constant_nan` at the concrete constant
input. -/
theorem engine_constant_nan_witness :
    ∃ s, calculate_correlation (List.replicate 10 5) exPower = some s ∧
      s.pearson_r = none ∧ s.spearman_r = none ∧ s.n = 10 :=
  engine_constant_nan 10 5 exPower (by decide) (by decide)

/-! ### The Date-Aligned Merger -/

lemma innerMerge_nil (b : List DRow) : innerMerge [] b = [] := rfl

lemma innerMerge_cons (ra : DRow) (a b : List DRow) :
    innerMerge (ra :: a) b =
      ((b.filter (·.date = ra.date)).map fun rb => ⟨ra.date, ra.value, rb.value⟩)
        ++ innerMerge a b := by
  unfold innerMerge
  rw [List.flatMap_cons]

lemma mem_innerMerge {a b : List DRow} {m : MRow} (h : m ∈ innerMerge a b) :
    ∃ ra ∈ a, ∃ rb ∈ b, rb.date = ra.date ∧ m = ⟨ra.date, ra.value, rb.value⟩ := by
  unfold innerMerge at h
  rcases List.mem_flatMap.mp h with ⟨ra, hra, hm⟩
  rcases List.mem_map.mp hm with ⟨rb, hrb, rfl⟩
  rcases List.mem_filter.mp hrb with ⟨hrb', hdate⟩
  exact ⟨ra, hra, rb, hrb', by simpa using hdate, rfl⟩

lemma mem_dropna {m : List MRow} {r : ARow} (h : r ∈ dropna m) :
    (⟨r.date, some r.value_a, some r.value_b⟩ : MRow) ∈ m := by
  unfold dropna at h
  rcases List.mem_filterMap.mp h with ⟨mr, hmr, hsome⟩
  rcases mr with ⟨d, va, vb⟩
  rcases va with _ | x <;> rcases vb with _ | y <;> simp_all
  rcases hsome with ⟨rfl, rfl, rfl⟩
  exact hmr

lemma filter_date_length_le_one {b : List DRow}
    (hb : (b.map (·.date)).Nodup) (d : Nat) :
    (b.filter (·.date = d)).length ≤ 1 := by
  induction b with
  | nil => simp
  | cons rb bt ih =>
    rw [List.map_cons, List.nodup_cons] at hb
    by_cases hd : rb.date = d
    · have hnil : bt.filter (·.date = d) = [] := by
        rw [List.filter_eq_nil_iff]
        intro x hx hxd
        have hx' : x.date = rb.date := (of_decide_eq_true hxd).trans hd.symm
        exact hb.1 (hx' ▸ List.mem_map_of_mem (·.date) hx)
      rw [List.filter_cons, if_pos (by simpa using hd), hnil]
      simp
    · rw [List.filter_cons, if_neg (by simpa using hd)]
      exact ih hb.2

lemma length_innerMerge_le_left (a b : List DRow)
    (hb : (b.map (·.date)).Nodup) :
    (innerMerge a b).length ≤ a.length := by
  induction a with
  | nil => simp [innerMerge]
  | cons ra tl ih =>
    rw [innerMerge_cons, List.length_append, List.length_map, List.length_cons]
    have := filter_date_length_le_one hb ra.date
    omega

lemma filter_mem_cons_split (b : List DRow) (d : Nat) (ds : List Nat)
    (hd : d ∉ ds) :
    (b.filter (fun rb => rb.date ∈ d :: ds)).length =
      (b.filter (·.date = d)).length +
        (b.filter (fun rb => rb.date ∈ ds)).length := by
  induction b with
  | nil => simp
  | cons rb bt ih =>
    simp only [List.filter_cons]
    by_cases h1 : rb.date = d
    · rw [if_pos (by simp [h1]), if_pos (by simpa using h1),
        if_neg (by simp [h1]; exact hd)]
      rw [List.length_cons, List.length_cons, ih]
      omega
    · by_cases h2 : rb.date ∈ ds
      · rw [if_pos (by simp [h2]), if_neg (by simpa using h1),
          if_pos (by simpa using h2)]
        rw [List.length_cons, List.length_cons, ih]
        omega
      · rw [if_neg (by simp [h1, h2]), if_neg (by simpa using h1),
          if_neg (by simpa using h2)]
        exact ih

lemma length_innerMerge_le_right (a b : List DRow)
    (ha : (a.map (·.date)).Nodup) :
    (innerMerge a b).length ≤ b.length := by
  have key : ∀ l : List DRow, (l.map (·.date)).Nodup →
      (innerMerge l b).length ≤
        (b.filter (fun rb => rb.date ∈ l.map (·.date))).length := by
    intro l
    induction l with
    | nil => intro _; simp [innerMerge]
    | cons ra tl ih =>
      intro h
      rw [List.map_cons, List.nodup_cons] at h
      rw [innerMerge_cons, List.length_append, List.length_map, List.map_cons]
      rw [filter_mem_cons_split b ra.date _ h.1]
      have := ih h.2
      omega
  exact le_trans (key a ha) (List.length_filter_le _ _)

/-- C4: on two daily series, each with at most one row per date, the merged
output has at most `min` of the input lengths many rows, and each output row
comes from a row of each input with that very date and a present value (so
no date outside both inputs, and no null value, survives). -/
theorem merger_bounds (a b : List DRow)
    (ha : (a.map (·.date)).Nodup) (hb : (b.map (·.date)).Nodup) :
    (mergeDaily a b).length ≤ min a.length b.length ∧
    ∀ r ∈ mergeDaily a b,
      (⟨r.date, some r.value_a⟩ : DRow) ∈ a ∧
        (⟨r.date, some r.value_b⟩ : DRow) ∈ b := by
  constructor
  · have h1 : (mergeDaily a b).length ≤ (innerMerge a b).length :=
      List.length_filterMap_le _ _
    have h2 := length_innerMerge_le_left a b hb
    have h3 := length_innerMerge_le_right a b ha
    exact le_min (le_trans h1 h2) (le_trans h1 h3)
  · intro r hr
    rcases mem_innerMerge (mem_dropna hr) with ⟨ra, hra, rb, hrb, hdate, heq⟩
    injection heq with e1 e2 e3
    constructor
    · have : (⟨r.date, some r.value_a⟩ : DRow) = ra := by
        cases ra; simp_all
      exact this ▸ hra
    · have : (⟨r.date, some r.value_b⟩ : DRow) = rb := by
        cases rb; simp_all
      exact this ▸ hrb

/-- Closed instance of `merger_bounds` at a concrete input. -/
theorem merger_bounds_witness :
    (mergeDaily [⟨0, some 1⟩, ⟨1, some 2⟩] [⟨1, some 5⟩, ⟨2, none⟩]).length ≤
      min 2 2 :=
  (merger_bounds _ _ (by decide) (by decide)).1

lemma mem_innerMerge_date {a b : List DRow} {m : MRow}
    (h : m ∈ innerMerge a b) : m.date ∈ a.map (·.date) := by
  rcases mem_innerMerge h with ⟨ra, hra, _, _, _, rfl⟩
  exact List.mem_map_of_mem (·.date) hra

lemma innerMerge_pairwise {a b : List DRow}
    (ha : (a.map (·.date)).Pairwise (· ≤ ·)) :
    ((innerMerge a b).map (·.date)).Pairwise (· ≤ ·) := by
  rw [List.pairwise_map] at ha ⊢
  induction a with
  | nil => simp [innerMerge]
  | cons ra tl ih =>
    rw [List.pairwise_cons] at ha
    rw [innerMerge_cons, List.pairwise_append]
    refine ⟨?_, ih ha.2, ?_⟩
    · rw [List.pairwise_map]
      exact List.pairwise_of_forall fun _ _ => le_refl ra.date
    · intro x hx y hy
      rcases List.mem_map.mp hx with ⟨rb, _, rfl⟩
      have hy' := mem_innerMerge_date hy
      rcases List.mem_map.mp hy' with ⟨ra', hra', hdy⟩
      exact hdy ▸ ha.1 ra' hra'

lemma dropna_map_date (m : List MRow) :
    (dropna m).map (·.date) =
      (m.filter fun r => r.value_a.isSome && r.value_b.isSome).map (·.date) := by
  induction m with
  | nil => rfl
  | cons mr mt ih =>
    rcases mr with ⟨d, va, vb⟩
    rcases va with _ | x <;> rcases vb with _ | y <;>
      simp_all [dropna, List.filter_cons]

/-- C9: every daily series the Daily Aggregator produces is sorted by date
ascending, and the Date-Aligned Merger maps a date-sorted left series (the
merges in this program all put the power daily series, which is aggregated
and hence sorted, on the left) to a date-sorted aligned output — the inner
merge preserves the left frame's key order and `dropna` only removes rows. -/
theorem merger_output_sorted :
    (∀ (f : List (Option ℚ) → Option ℚ) (rows : List DRow),
      ((groupAgg f rows).map (·.date)).Sorted (· ≤ ·)) ∧
    (∀ a b : List DRow, ((a.map (·.date)).Sorted (· ≤ ·)) →
      ((mergeDaily a b).map (·.date)).Sorted (· ≤ ·)) := by
  constructor
  · intro f rows
    rw [groupAgg_map_date]
    exact groupKeys_sorted rows
  · intro a b ha
    unfold mergeDaily
    rw [dropna_map_date]
    have hsub : List.Sublist
        ((innerMerge a b).filter fun r => r.value_a.isSome && r.value_b.isSome)
        (innerMerge a b) := List.filter_sublist _
    exact (innerMerge_pairwise ha).sublist (hsub.map (·.date))

/-- Closed instance of `merger_output_sorted` at a concrete sorted input. -/
theorem merger_output_sorted_witness :
    ((mergeDaily [⟨0, some 1⟩, ⟨1, some 2⟩, ⟨3, some 4⟩]
        [⟨1, some 5⟩, ⟨3, some 6⟩]).map (·.date)).Sorted (· ≤ ·) :=
  merger_output_sorted.2 _ _ (by decide)

/-! ### The Daily Aggregator -/

lemma filterMap_toWaterRow_filter (l : List WaterRaw) :
    (l.filter (·.water_level.isSome)).filterMap toWaterRow =
      l.filterMap toWaterRow := by
  induction l with
  | nil => rfl
  | cons r rt ih =>
    rcases hr : r.water_level with _ | v
    · rw [List.filter_cons, if_neg (by simp [hr]), List.filterMap_cons,
        show toWaterRow r = none by simp [toWaterRow, hr], ih]
    · rw [List.filter_cons, if_pos (by simp [hr]), List.filterMap_cons,
        List.filterMap_cons, ih]

lemma ranged_filterMap_eq (rows : List WaterRaw) (s e : TS) :
    List.filterMap toWaterRow (rows.filter fun r => s ≤ r.time ∧ r.time ≤ e) =
      List.filterMap toWaterRow
        ((rows.filter (·.water_level.isSome)).filter
          fun r => s ≤ r.time ∧ r.time ≤ e) := by
  rw [List.filter_comm]
  exact (filterMap_toWaterRow_filter _).symm

lemma valuesAt_map_power (rows : List PowerRaw) (d : Nat) :
    valuesAt (rows.map toPowerDRow) d =
      (rows.filter fun q => tsDate q.dt = d).map (·.power_actual) := by
  unfold valuesAt
  rw [List.filter_map, List.map_map]
  rfl

/-- C7: rows with a missing value never influence the daily reduction.  The
water pipeline is literally unchanged if the invalid raw rows are discarded
first (its `dropna` runs before everything downstream), and each daily
power value is the sum of only the present same-day cells (pandas `sum`
skips NaN). -/
theorem aggregator_excludes_invalid :
    (∀ (rows : List WaterRaw) (s e : TS),
      process_water_data rows s e =
        process_water_data (rows.filter (·.water_level.isSome)) s e) ∧
    (∀ rows : List PowerRaw, ∀ r ∈ load_power_data rows,
      r.value = some (((rows.filter fun q => tsDate q.dt = r.date).filterMap
        (·.power_actual)).sum)) := by
  constructor
  · intro rows s e
    exact congrArg (List.insertionSort riverTimeLE) (ranged_filterMap_eq rows s e)
  · intro rows r hr
    have hr' : r ∈ groupAgg pdSum (rows.map toPowerDRow) :=
      List.mem_of_mem_filter hr
    rw [(mem_groupAgg hr').1, valuesAt_map_power]
    unfold pdSum
    rw [List.filterMap_map]
    rfl

/-- Closed instance of `aggregator_excludes_invalid` at concrete raw
rows. -/
theorem aggregator_excludes_invalid_witness :
    process_water_data exWaterRaws 0 5000 =
      process_water_data (exWaterRaws.filter (·.water_level.isSome)) 0 5000 :=
  aggregator_excludes_invalid.1 exWaterRaws 0 5000

lemma valuesAt_waterDRows (w : List WaterRow) (rv : String) (d : Nat) :
    valuesAt (waterDRows (w.filter (·.river_name = rv))) d =
      (w.filter fun q => q.river_name = rv ∧ q.date = d).map
        fun q => some q.water_level := by
  unfold valuesAt waterDRows
  rw [List.filter_map, List.map_map, List.filter_filter]
  congr 1
  apply List.filter_congr
  intro x hx
  simp [Bool.decide_and, Bool.and_comm]

/-- C8: the Daily Aggregator yields at most one row per calendar date for
both series; water dates are timestamps truncated to day granularity; each
power date carries the pandas `sum` of its same-day source cells and each
per-river water date the pandas `mean` of that river's same-day rows. -/
theorem aggregator_one_row_per_day :
    (∀ rows : List PowerRaw, ((load_power_data rows).map (·.date)).Nodup) ∧
    (∀ (w : List WaterRow) (rv : String),
      ((riverDaily w rv).map (·.date)).Nodup) ∧
    (∀ (rows : List WaterRaw) (s e : TS), ∀ p ∈ process_water_data rows s e,
      p.date = tsDate p.time) ∧
    (∀ rows : List PowerRaw, ∀ r ∈ load_power_data rows,
      r.value = pdSum ((rows.filter fun q => tsDate q.dt = r.date).map
        (·.power_actual))) ∧
    (∀ (w : List WaterRow) (rv : String), ∀ r ∈ riverDaily w rv,
      r.value = pdMean ((w.filter fun q => q.river_name = rv ∧ q.date = r.date).map
        fun q => some q.water_level)) := by
  refine ⟨?_, ?_, ?_, ?_, ?_⟩
  · intro rows
    have hsub : List.Sublist
        ((load_power_data rows).map (·.date))
        ((groupAgg pdSum (rows.map toPowerDRow)).map (·.date)) :=
      (List.filter_sublist _).map _
    have hnd : ((groupAgg pdSum (rows.map toPowerDRow)).map (·.date)).Nodup := by
      rw [groupAgg_map_date]
      exact groupKeys_nodup _
    exact hnd.sublist hsub
  · intro w rv
    unfold riverDaily
    rw [groupAgg_map_date]
    exact groupKeys_nodup _
  · intro rows s e p hp
    unfold process_water_data at hp
    rw [(List.perm_insertionSort _ _).mem_iff] at hp
    rcases List.mem_filterMap.mp hp with ⟨raw, _, hsome⟩
    rcases hraw : raw.water_level with _ | v <;> rw [toWaterRow, hraw] at hsome
    · exact absurd hsome (by simp)
    · cases hsome
      rfl
  · intro rows r hr
    have hr' : r ∈ groupAgg pdSum (rows.map toPowerDRow) :=
      List.mem_of_mem_filter hr
    rw [(mem_groupAgg hr').1, valuesAt_map_power]
  · intro w rv r hr
    unfold riverDaily at hr
    rw [(mem_groupAgg hr).1, valuesAt_waterDRows]

/-- Closed instance of `aggregator_one_row_per_day` at concrete raw power
rows. -/
theorem aggregator_one_row_per_day_witness :
    ((load_power_data exPowerRaws).map (·.date)).Nodup :=
  aggregator_one_row_per_day.1 exPowerRaws

/-! ### Batch loops skip entities instead of aborting -/

lemma rankerCollect_append (w : List WaterRow) (power : List DRow)
    (l1 l2 : List String) :
    rankerCollect w power (l1 ++ l2) =
      rankerCollect w power l1 ++ rankerCollect w power l2 := by
  unfold rankerCollect
  exact List.filterMap_append _ _ _

lemma rankerCollect_cons_skip {w : List WaterRow} {power : List DRow}
    {rv : String} (h : clearsFloor w power rv = false) (rest : List String) :
    rankerCollect w power (rv :: rest) = rankerCollect w power rest := by
  unfold rankerCollect
  rw [List.filterMap_cons]
  have h' : ¬ (10 ≤ (mergeDaily power (riverDaily w rv)).length) := by
    simpa [clearsFloor] using h
  unfold rankerStep
  rw [if_neg h']

lemma comparatorCollect_append (wsum : List DRow) (s e : Nat)
    (l1 l2 : List (String × List DRow)) :
    comparatorCollect (l1 ++ l2) wsum s e =
      comparatorCollect l1 wsum s e ++ comparatorCollect l2 wsum s e := by
  unfold comparatorCollect
  exact List.filterMap_append _ _ _

lemma comparatorCollect_cons_skip {wsum : List DRow} {s e : Nat}
    {p : String × List DRow}
    (h : ¬ (10 ≤ (mergeDaily (filterRange s e p.2) wsum).length))
    (rest : List (String × List DRow)) :
    comparatorCollect (p :: rest) wsum s e = comparatorCollect rest wsum s e := by
  unfold comparatorCollect
  rw [List.filterMap_cons]
  unfold comparatorStep
  rw [if_neg h]

lemma rankerCollect_cons_mem {w : List WaterRow} {power : List DRow}
    {rv : String} {rec : RankRec} (h : rankerStep w power rv = some rec)
    (rest : List String) :
    rankerCollect w power (rv :: rest) = rec :: rankerCollect w power rest := by
  unfold rankerCollect
  rw [List.filterMap_cons, h]

/-! ### The Ranker table -/

lemma rankerStep_isSome (w : List WaterRow) (power : List DRow)
    (rv : String) :
    (rankerStep w power rv).isSome = clearsFloor w power rv := by
  unfold rankerStep clearsFloor
  by_cases h : 10 ≤ (mergeDaily power (riverDaily w rv)).length
  · rw [if_pos h]
    obtain ⟨s, hs, -⟩ := calc_isSome_of_floor
      (alignedWater (mergeDaily power (riverDaily w rv)))
      (alignedPower (mergeDaily power (riverDaily w rv)))
      (by simp [alignedWater, alignedPower])
      (by simpa [alignedWater] using h)
    rw [hs]
    simp [h]
  · rw [if_neg h]
    simp [h]

lemma length_filterMap_eq_filter {α β : Type} (f : α → Option β)
    (p : α → Bool) (h : ∀ x, (f x).isSome = p x) :
    ∀ l : List α, (l.filterMap f).length = (l.filter p).length := by
  intro l
  induction l with
  | nil => rfl
  | cons x xs ih =>
    rw [List.filterMap_cons, List.filter_cons]
    rcases hx : f x with _ | b
    · have hp : p x = false := by rw [← h x, hx]; rfl
      rw [hp]
      simpa using ih
    · have hp : p x = true := by rw [← h x, hx]; rfl
      rw [hp]
      simpa using ih

lemma rankerCollect_length (w : List WaterRow) (power : List DRow)
    (rivers : List String) :
    (rankerCollect w power rivers).length =
      (rivers.filter fun rv => clearsFloor w power rv).length :=
  length_filterMap_eq_filter _ _ (rankerStep_isSome w power) rivers

lemma mem_rankerCollect {w : List WaterRow} {power : List DRow}
    {rivers : List String} {rec : RankRec}
    (h : rec ∈ rankerCollect w power rivers) :
    rec.river ∈ rivers ∧ clearsFloor w power rec.river = true := by
  unfold rankerCollect at h
  rcases List.mem_filterMap.mp h with ⟨rv, hrv, hsome⟩
  have hfloor : clearsFloor w power rv = true := by
    have hiss := rankerStep_isSome w power rv
    rw [hsome] at hiss
    exact hiss.symm.trans rfl
  have h10 : 10 ≤ (mergeDaily power (riverDaily w rv)).length := by
    simpa [clearsFloor] using hfloor
  obtain ⟨s, hs, -⟩ := calc_isSome_of_floor
    (alignedWater (mergeDaily power (riverDaily w rv)))
    (alignedPower (mergeDaily power (riverDaily w rv)))
    (by simp [alignedWater, alignedPower])
    (by simpa [alignedWater] using h10)
  unfold rankerStep at hsome
  rw [if_pos h10, hs] at hsome
  cases hsome
  exact ⟨hrv, hfloor⟩

lemma withRanks_map_fst (l : List RankRec) :
    (withRanks l).map Prod.fst = List.range' 1 l.length := by
  unfold withRanks
  exact List.map_fst_zip _ _ (by simp)

lemma withRanks_map_snd (l : List RankRec) :
    (withRanks l).map Prod.snd = l := by
  unfold withRanks
  exact List.map_snd_zip _ _ (by simp)

/-- C5: the ranking table is the collected records sorted by descending
absolute Pearson coefficient (NaN last), its rank column is exactly
`1..k` where `k` is the number of candidate rivers that cleared the
10-row sample floor, and every listed river cleared the floor (rivers
below the floor are omitted from the table entirely, not ranked last). -/
theorem ranker_table_ranked (w : List WaterRow) (power : List DRow)
    (rivers : List String) :
    ((rankerTable w power rivers).map Prod.snd).Sorted rankOrder ∧
    List.Perm ((rankerTable w power rivers).map Prod.snd)
      (rankerCollect w power rivers) ∧
    (rankerTable w power rivers).map Prod.fst =
      List.range' 1 (rankerCollect w power rivers).length ∧
    (rankerCollect w power rivers).length =
      (rivers.filter fun rv => clearsFloor w power rv).length ∧
    ∀ entry ∈ rankerTable w power rivers,
      clearsFloor w power entry.2.river = true := by
  refine ⟨?_, ?_, ?_, rankerCollect_length w power rivers, ?_⟩
  · rw [rankerTable, withRanks_map_snd]
    exact List.sorted_insertionSort rankOrder _
  · rw [rankerTable, withRanks_map_snd]
    exact List.perm_insertionSort rankOrder _
  · rw [rankerTable, withRanks_map_fst, (List.perm_insertionSort rankOrder _).length_eq]
  · intro entry hentry
    rw [rankerTable, withRanks] at hentry
    have h2 := (List.of_mem_zip hentry).2
    rw [(List.perm_insertionSort rankOrder _).mem_iff] at h2
    exact (mem_rankerCollect h2).2

/-- Closed instance of `ranker_table_ranked` at a concrete candidate
list. -/
theorem ranker_table_ranked_witness :
    (rankerTable [] [] [riverA, riverB]).map Prod.fst =
      List.range' 1 (rankerCollect [] [] [riverA, riverB]).length :=
  (ranker_table_ranked [] [] [riverA, riverB]).2.2.1

/-! ### Batch loops: sample-floor entities are skipped, degenerate ones are
collected with NaN statistics -/

lemma filterMap_id_replicate_some (n : Nat) (c : ℚ) :
    List.filterMap id (List.replicate n (some c)) = List.replicate n c := by
  induction n with
  | zero => rfl
  | succ n ih => simp [List.replicate_succ, ih]

lemma pdMean_const {vs : List (Option ℚ)} {c : ℚ} (hne : vs ≠ [])
    (hall : ∀ v ∈ vs, v = some c) : pdMean vs = some c := by
  have hrep : vs = List.replicate vs.length (some c) :=
    List.eq_replicate_of_mem hall
  rw [hrep]
  unfold pdMean
  rw [filterMap_id_replicate_some]
  have hlen : vs.length ≠ 0 := by
    intro h0
    exact hne (List.eq_nil_of_length_eq_zero h0)
  rw [if_neg (by rw [List.length_replicate]; exact hlen)]
  rw [show (List.replicate vs.length c).sum /
      ((List.replicate vs.length c).length : ℚ) =
      mean (List.replicate vs.length c) from rfl]
  rw [mean_replicate c hlen]

/-- If every reading of a river has the same level, every aligned water
value of that river's merged frame equals that level (the engine's
`value_a` column is constant). -/
lemma aligned_const (w : List WaterRow) (power : List DRow) (rv : String)
    (c : ℚ) (hconst : ∀ r ∈ w, r.river_name = rv → r.water_level = c) :
    ∀ x ∈ alignedWater (mergeDaily power (riverDaily w rv)), x = c := by
  intro x hx
  rcases List.mem_map.mp hx with ⟨ar, har, rfl⟩
  rcases mem_innerMerge (mem_dropna har) with ⟨ra, _, rb, hrb, _, heq⟩
  injection heq with e1 e2 e3
  unfold riverDaily at hrb
  have hgb := mem_groupAgg hrb
  have hne : (w.filter fun q => q.river_name = rv ∧ q.date = rb.date) ≠ [] := by
    have hd := hgb.2
    unfold waterDRows at hd
    rw [List.map_map, List.mem_map] at hd
    rcases hd with ⟨q, hq, hqd⟩
    rcases List.mem_filter.mp hq with ⟨hqw, hqr⟩
    refine List.ne_nil_of_mem (l := _) (a := q) ?_
    rw [List.mem_filter]
    exact ⟨hqw, by
      simp only [decide_eq_true_eq] at hqr ⊢
      exact ⟨hqr, hqd⟩⟩
  have hval : rb.value = some c := by
    rw [hgb.1, valuesAt_waterDRows]
    refine pdMean_const (by simpa using hne) ?_
    intro v hv
    rcases List.mem_map.mp hv with ⟨q, hq, rfl⟩
    rcases List.mem_filter.mp hq with ⟨hqw, hqpred⟩
    rw [hconst q hqw (of_decide_eq_true hqpred).1]
  rw [hval] at e3
  exact Option.some.inj e3

/-- Counterexample to C6 as stated: a degenerate entity — here a river whose
water level is the constant 5 over ten aligned days, so its correlation is
undefined — is NOT skipped by the ranking batch: scipy returns NaN rather
than raising, `calculate_correlation` returns a truthy record, and the
entity is collected (the collection differs from the one without it, which
is empty). -/
theorem degenerate_entity_not_skipped :
    rankerCollect exConstWaterRows exPowerDaily [riverA] ≠
      rankerCollect exConstWaterRows exPowerDaily [] := by
  decide

/-- Amended C6: an entity below the 10-aligned-rows sample floor is skipped
by both batch loops (Tab 4 ranking and Tab 5 comparison) and the remaining
entities are still processed — insufficient data never aborts a batch.  A
floor-clearing entity, however, is always collected — in particular a
degenerate one (constant water column), which is not skipped but included
with NaN Pearson statistic, since the numeric routines signal degeneracy by
NaN instead of raising. -/
theorem batch_skips_only_subfloor_entities :
    (∀ (w : List WaterRow) (power : List DRow) (l1 l2 : List String)
      (rv : String), clearsFloor w power rv = false →
      rankerCollect w power (l1 ++ rv :: l2) = rankerCollect w power (l1 ++ l2)) ∧
    (∀ (wsum : List DRow) (s e : Nat) (l1 l2 : List (String × List DRow))
      (p : String × List DRow),
      ¬ (10 ≤ (mergeDaily (filterRange s e p.2) wsum).length) →
      comparatorCollect (l1 ++ p :: l2) wsum s e =
        comparatorCollect (l1 ++ l2) wsum s e) ∧
    (∀ (w : List WaterRow) (power : List DRow) (l1 l2 : List String)
      (rv : String), clearsFloor w power rv = true →
      ∃ rec, rankerStep w power rv = some rec ∧
        rankerCollect w power (l1 ++ rv :: l2) =
          rankerCollect w power l1 ++ rec :: rankerCollect w power l2) ∧
    (∀ (w : List WaterRow) (power : List DRow) (rv : String) (c : ℚ),
      clearsFloor w power rv = true →
      (∀ r ∈ w, r.river_name = rv → r.water_level = c) →
      ∃ rec, rankerStep w power rv = some rec ∧ rec.pearson_r = none) := by
  refine ⟨?_, ?_, ?_, ?_⟩
  · intro w power l1 l2 rv h
    rw [rankerCollect_append, rankerCollect_cons_skip h, ← rankerCollect_append]
  · intro wsum s e l1 l2 p h
    rw [comparatorCollect_append, comparatorCollect_cons_skip h,
      ← comparatorCollect_append]
  · intro w power l1 l2 rv h
    have hiss : (rankerStep w power rv).isSome = true := by
      rw [rankerStep_isSome, h]
    rcases Option.isSome_iff_exists.mp hiss with ⟨rec, hrec⟩
    exact ⟨rec, hrec, by rw [rankerCollect_append, rankerCollect_cons_mem hrec]⟩
  · intro w power rv c hfloor hconst
    have h10 : 10 ≤ (mergeDaily power (riverDaily w rv)).length := by
      simpa [clearsFloor] using hfloor
    have hrep : alignedWater (mergeDaily power (riverDaily w rv)) =
        List.replicate (alignedWater (mergeDaily power (riverDaily w rv))).length c :=
      List.eq_replicate_of_mem (aligned_const w power rv c hconst)
    have hlenW : (alignedWater (mergeDaily power (riverDaily w rv))).length =
        (mergeDaily power (riverDaily w rv)).length := by
      simp [alignedWater]
    obtain ⟨s, hs, hps, -, -⟩ := calc_replicate_record
      (alignedWater (mergeDaily power (riverDaily w rv))).length c
      (alignedPower (mergeDaily power (riverDaily w rv)))
      (by omega) (by simp [alignedPower, hlenW])
    have hcalc : calculate_correlation
        (alignedWater (mergeDaily power (riverDaily w rv)))
        (alignedPower (mergeDaily power (riverDaily w rv))) = some s := by
      rw [hrep]
      exact hs
    have hstep : rankerStep w power rv =
        some ⟨rv, s.n, s.pearson_r, s.r2, s.pearson_p, s.slope,
          (((mergeDaily power (riverDaily w rv)).map (·.date)).min?).getD 0,
          (((mergeDaily power (riverDaily w rv)).map (·.date)).max?).getD 0⟩ := by
      unfold rankerStep
      rw [if_pos h10, hcalc]
    exact ⟨_, hstep, hps⟩

/-- Closed instance of `batch_skips_only_subfloor_entities` at the concrete
degenerate batch: constant-level `riverA` clears the floor and is collected
with a NaN Pearson statistic. -/
theorem batch_skips_only_subfloor_entities_witness :
    ∃ rec, rankerStep exConstWaterRows exPowerDaily riverA = some rec ∧
      rec.pearson_r = none :=
  batch_skips_only_subfloor_entities.2.2.2 exConstWaterRows exPowerDaily
    riverA 5 (by decide) (by decide)

/-! ### The multi-river combined series -/

lemma groupKeys_eq_of_mem_iff {l1 l2 : List DRow}
    (h : ∀ d, d ∈ l1.map (·.date) ↔ d ∈ l2.map (·.date)) :
    groupKeys l1 = groupKeys l2 := by
  refine List.eq_of_perm_of_sorted ?_ (groupKeys_sorted l1) (groupKeys_sorted l2)
  refine (List.perm_ext_iff_of_nodup (groupKeys_nodup l1) (groupKeys_nodup l2)).mpr ?_
  intro d
  rw [mem_groupKeys, mem_groupKeys]
  exact h d

lemma pdSum_valuesAt (rows : List DRow) (d : Nat) :
    pdSum (valuesAt rows d) =
      some (((rows.filter (·.date = d)).filterMap (·.value)).sum) := by
  unfold pdSum valuesAt
  rw [List.filterMap_map]
  rfl

lemma nodup_filter_eq {l : List Nat} (h : l.Nodup) {d : Nat} (hd : d ∈ l) :
    l.filter (· = d) = [d] := by
  induction l with
  | nil => cases hd
  | cons x xs ih =>
    rw [List.nodup_cons] at h
    by_cases hxd : x = d
    · rw [List.filter_cons, if_pos (by simpa using hxd)]
      have hnil : xs.filter (· = d) = [] := by
        rw [List.filter_eq_nil_iff]
        intro a ha hax
        apply h.1
        rw [hxd, ← of_decide_eq_true hax]
        exact ha
      rw [hnil, hxd]
    · have hdx : d ∈ xs := by
        rcases List.mem_cons.mp hd with heq | hx
        · exact absurd heq.symm hxd
        · exact hx
      rw [List.filter_cons, if_neg (by simpa using hxd)]
      exact ih h.2 hdx

lemma groupAgg_filter_self (f : List (Option ℚ) → Option ℚ)
    (rows : List DRow) {d : Nat} (hd : d ∈ groupKeys rows) :
    (groupAgg f rows).filter (·.date = d) = [⟨d, f (valuesAt rows d)⟩] := by
  unfold groupAgg
  rw [List.filter_map]
  have : (groupKeys rows).filter
      ((fun r : DRow => decide (r.date = d)) ∘ fun k => (⟨k, f (valuesAt rows k)⟩ : DRow)) =
      (groupKeys rows).filter (· = d) := rfl
  rw [this, nodup_filter_eq (groupKeys_nodup rows) hd]
  rfl

lemma groupAgg_filter_nil (f : List (Option ℚ) → Option ℚ)
    (rows : List DRow) {d : Nat} (hd : d ∉ groupKeys rows) :
    (groupAgg f rows).filter (·.date = d) = [] := by
  unfold groupAgg
  rw [List.filter_map]
  have : (groupKeys rows).filter
      ((fun r : DRow => decide (r.date = d)) ∘ fun k => (⟨k, f (valuesAt rows k)⟩ : DRow)) =
      (groupKeys rows).filter (· = d) := rfl
  rw [this]
  have : (groupKeys rows).filter (· = d) = [] := by
    rw [List.filter_eq_nil_iff]
    intro a ha hax
    exact hd ((of_decide_eq_true hax) ▸ ha)
  rw [this]
  rfl

lemma sumAt_groupAgg (rows : List DRow) (d : Nat) :
    (((groupAgg pdSum rows).filter (·.date = d)).filterMap (·.value)).sum =
      ((rows.filter (·.date = d)).filterMap (·.value)).sum := by
  by_cases hd : d ∈ groupKeys rows
  · rw [groupAgg_filter_self pdSum rows hd, pdSum_valuesAt]
    simp
  · rw [groupAgg_filter_nil pdSum rows hd]
    have : rows.filter (·.date = d) = [] := by
      rw [List.filter_eq_nil_iff]
      intro a ha hax
      exact hd (mem_groupKeys.mpr
        ((of_decide_eq_true hax) ▸ List.mem_map_of_mem (·.date) ha))
    rw [this]

lemma sumAt_flatten (M : List (List DRow)) (d : Nat) :
    (((M.flatten).filter (·.date = d)).filterMap (·.value)).sum =
      (M.map fun rows =>
        ((rows.filter (·.date = d)).filterMap (·.value)).sum).sum := by
  induction M with
  | nil => rfl
  | cons rows M ih =>
    rw [List.flatten_cons, List.filter_append, List.filterMap_append,
      List.sum_append, List.map_cons, List.sum_cons, ih]

lemma mem_map_date_groupAgg {f : List (Option ℚ) → Option ℚ}
    {rows : List DRow} {d : Nat} :
    d ∈ (groupAgg f rows).map (·.date) ↔ d ∈ rows.map (·.date) := by
  rw [groupAgg_map_date]
  exact mem_groupKeys

lemma groupAgg_eq_of (f : List (Option ℚ) → Option ℚ) {l1 l2 : List DRow}
    (hk : groupKeys l1 = groupKeys l2)
    (hv : ∀ d ∈ groupKeys l2, f (valuesAt l1 d) = f (valuesAt l2 d)) :
    groupAgg f l1 = groupAgg f l2 := by
  unfold groupAgg
  rw [hk]
  exact List.map_congr_left fun d hd => by rw [hv d hd]

lemma groupAgg_flatten_agg (M : List (List DRow)) :
    groupAgg pdSum ((M.map (groupAgg pdSum)).flatten) =
      groupAgg pdSum M.flatten := by
  have hkeys : groupKeys ((M.map (groupAgg pdSum)).flatten) =
      groupKeys M.flatten := by
    apply groupKeys_eq_of_mem_iff
    intro d
    rw [List.map_flatten, List.map_flatten, List.mem_flatten, List.mem_flatten]
    constructor
    · rintro ⟨l, hl, hdl⟩
      rw [List.map_map, List.mem_map] at hl
      rcases hl with ⟨rows, hrows, rfl⟩
      exact ⟨rows.map (·.date), List.mem_map_of_mem _ hrows,
        mem_map_date_groupAgg.mp hdl⟩
    · rintro ⟨l, hl, hdl⟩
      rw [List.mem_map] at hl
      rcases hl with ⟨rows, hrows, rfl⟩
      refine ⟨(groupAgg pdSum rows).map (·.date), ?_, mem_map_date_groupAgg.mpr hdl⟩
      rw [List.map_map]
      exact List.mem_map_of_mem _ hrows
  refine groupAgg_eq_of pdSum hkeys ?_
  intro d _
  rw [pdSum_valuesAt, pdSum_valuesAt]
  congr 1
  rw [sumAt_flatten, sumAt_flatten, List.map_map]
  congr 1
  apply List.map_congr_left
  intro rows _
  exact sumAt_groupAgg rows d

lemma groupAgg_pdSum_perm {l1 l2 : List DRow} (h : List.Perm l1 l2) :
    groupAgg pdSum l1 = groupAgg pdSum l2 := by
  refine groupAgg_eq_of pdSum
    (groupKeys_eq_of_mem_iff fun d => (h.map (·.date)).mem_iff) ?_
  intro d _
  rw [pdSum_valuesAt, pdSum_valuesAt, ((h.filter _).filterMap _).sum_eq]

lemma filter_mem_cons_perm (w : List WaterRow) (rv : String)
    (rest : List String) (h : rv ∉ rest) :
    List.Perm (w.filter fun r => r.river_name ∈ rv :: rest)
      ((w.filter (·.river_name = rv)) ++
        (w.filter fun r => r.river_name ∈ rest)) := by
  induction w with
  | nil => rfl
  | cons x xs ih =>
    by_cases h1 : x.river_name = rv
    · rw [List.filter_cons, if_pos (by simp [h1]),
        List.filter_cons, if_pos (by simpa using h1),
        List.filter_cons, if_neg (by simp [h1]; exact h)]
      exact ih.cons x
    · by_cases h2 : x.river_name ∈ rest
      · rw [List.filter_cons, if_pos (by simp [h2]),
          List.filter_cons, if_neg (by simpa using h1),
          List.filter_cons, if_pos (by simpa using h2)]
        exact (ih.cons x).trans List.perm_middle.symm
      · rw [List.filter_cons, if_neg (by simp [h1, h2]),
          List.filter_cons, if_neg (by simpa using h1),
          List.filter_cons, if_neg (by simpa using h2)]
        exact ih

lemma filter_mem_perm_flatten (w : List WaterRow) (rivers : List String)
    (h : rivers.Nodup) :
    List.Perm (w.filter fun r => r.river_name ∈ rivers)
      ((rivers.map fun rv => w.filter (·.river_name = rv)).flatten) := by
  induction rivers with
  | nil => simp
  | cons rv rest ih =>
    rw [List.nodup_cons] at h
    rw [List.map_cons, List.flatten_cons]
    exact (filter_mem_cons_perm w rv rest h.1).trans ((ih h.2).append_left _)

/-- Counterexample to C2 as stated: with two same-day readings for one
river, the combined multi-river series of the source (one single
`groupby('date').sum()` over all selected rows) differs from the series the
spec describes (per-river daily aggregation by the water reduction — the
daily mean — followed by a summation across rivers). -/
theorem combined_differs_from_mean_then_sum :
    combinedWaterSum exWaterRows [riverA, riverB] ≠
      specMeanThenSum exWaterRows [riverA, riverB] := by
  intro heq
  have h1 : combinedWaterSum exWaterRows [riverA, riverB] =
      [⟨0, pdSum [some 1, some 3, some 5]⟩, ⟨1, pdSum [some 7]⟩] := rfl
  have h2 : specMeanThenSum exWaterRows [riverA, riverB] =
      [⟨0, pdSum [pdMean [some 1, some 3], pdMean [some 5]]⟩,
       ⟨1, pdSum [pdMean [some 7]]⟩] := rfl
  rw [h1, h2] at heq
  simp only [List.cons.injEq, DRow.mk.injEq, true_and, and_true] at heq
  have hval : pdSum [some 1, some 3, some 5] =
      pdSum [pdMean [some 1, some 3], pdMean [some 5]] := heq.1
  rw [show pdSum [some 1, some 3, some 5] = some 9 by
      simp [pdSum]; norm_num,
    show pdSum [pdMean [some 1, some 3], pdMean [some 5]] = some 7 by
      simp [pdSum, pdMean]; norm_num] at hval
  have : (9 : ℚ) = 7 := Option.some.inj hval
  norm_num at this

/-- Amended C2: the combined multi-river series equals the per-river daily
SUM series summed across the selected rivers — the single-pass
`groupby('date').sum()` decomposes river by river under the sum reduction.
It is not built from the per-river daily MEANs used by the single-river
views: a river with several same-day readings contributes their sum, not
its daily mean (see the counterexample). -/
theorem combined_is_sum_of_daily_sums (w : List WaterRow)
    (rivers : List String) (h : rivers.Nodup) :
    combinedWaterSum w rivers =
      seriesSum (rivers.map fun rv => riverDailySum w rv) := by
  unfold seriesSum riverDailySum combinedWaterSum
  rw [show (rivers.map fun rv =>
        groupAgg pdSum (waterDRows (w.filter (·.river_name = rv)))) =
      (rivers.map fun rv => waterDRows (w.filter (·.river_name = rv))).map
        (groupAgg pdSum) by rw [List.map_map]; rfl]
  rw [groupAgg_flatten_agg]
  apply groupAgg_pdSum_perm
  rw [show (rivers.map fun rv => waterDRows (w.filter (·.river_name = rv))) =
      (rivers.map fun rv => w.filter (·.river_name = rv)).map
        (List.map fun r => (⟨r.date, some r.water_level⟩ : DRow)) by
    rw [List.map_map]
    rfl]
  rw [← List.map_flatten]
  exact (filter_mem_perm_flatten w rivers h).map _

/-- Closed instance of `combined_is_sum_of_daily_sums` at the concrete
example rows. -/
theorem combined_is_sum_of_daily_sums_witness :
    combinedWaterSum exWaterRows [riverA, riverB] =
      seriesSum ([riverA, riverB].map fun rv => riverDailySum exWaterRows rv) :=
  combined_is_sum_of_daily_sums exWaterRows [riverA, riverB] (by decide)

end WEPT
